import Mathlib

/-!
Verification development for the go-jira CI integration tool.

The Go sources are shallowly embedded in Lean:
* Go strings are modelled as `List Nat` of byte values wherever the code
  indexes raw bytes (the mention rewriter, the issue-key scanner), and as
  Lean `String` where the code only concatenates whole strings (the
  markdown renderer and the batch operations).
* Imperative loops become structural recursion; loops whose index can jump
  forward by more than one byte carry an explicit `fuel` argument that is
  instantiated with the input length (always sufficient, as proved where
  needed), so every definition evaluates by kernel reduction.
* Remote HTTP calls are inputs: each operation takes an oracle function
  describing the server's answer, and the concurrent fan-out/fan-in of
  goroutines is determinized to input order (only the multiset of per-item
  outcomes is observable through the returned values, which is what the
  theorems below are about).
-/

namespace GoJira

/-! ## Mention rewriting (pkg/markdown, `ConvertMentions`)

The Go code scans the string byte by byte and calls
`isValidMentionChar(rune(text[i]))`: each single byte is converted to a
rune, so the Unicode classifier is only ever consulted on code points
0..255 (the Latin-1 range). -/

/-- Models Go `unicode.IsLetter` restricted to code points 0..255, the only
values reachable from `ConvertMentions` (which passes single bytes).
Letters in Latin-1: ASCII letters, ªµº, and À..ÿ except × and ÷. -/
def isLatin1Letter (c : Nat) : Bool :=
  (65 ≤ c && c ≤ 90) || (97 ≤ c && c ≤ 122) ||
  (c == 0xAA) || (c == 0xB5) || (c == 0xBA) ||
  (0xC0 ≤ c && c ≤ 0xD6) || (0xD8 ≤ c && c ≤ 0xF6) || (0xF8 ≤ c && c ≤ 0xFF)

/-- Models Go `unicode.IsNumber` restricted to code points 0..255:
ASCII digits plus ²³¹ and ¼½¾. -/
def isLatin1Number (c : Nat) : Bool :=
  (48 ≤ c && c ≤ 57) ||
  (c == 0xB2) || (c == 0xB3) || (c == 0xB9) || (0xBC ≤ c && c ≤ 0xBE)

/-- Embeds `isValidMentionChar` from pkg/markdown: letter, number, `-` (45)
or `_` (95). The letter/number tests are Go's Unicode classifiers, which at
the call sites only ever see single bytes, hence the Latin-1 tables. -/
def isValidMentionChar (c : Nat) : Bool :=
  isLatin1Letter c || isLatin1Number c || c == 45 || c == 95

/-- Embeds the scanning loop of `ConvertMentions`. One step per loop
iteration of the Go code: at `@` (64) followed by a valid mention byte the
builder receives `[~` (91, 126), then the maximal run of valid bytes (the
inner `for` loop, i.e. `takeWhile`), then `]` (93); if a byte stopped the
run it is written through and the outer loop resumes after it (the `continue`
runs the outer `i++` on top of the inner loop's final position). Any other
byte is copied. `fuel` bounds the iteration count and is instantiated with
the input length, which never runs out. -/
def convertLoop : Nat → List Nat → List Nat
  | 0, _ => []
  | _ + 1, [] => []
  | f + 1, c :: rest =>
    if c == 64 then
      match rest with
      | d :: rest2 =>
        if isValidMentionChar d then
          91 :: 126 :: ((d :: rest2).takeWhile isValidMentionChar
            ++ 93 :: (match (d :: rest2).dropWhile isValidMentionChar with
                      | [] => []
                      | t :: ts => t :: convertLoop f ts))
        else c :: convertLoop f rest
      | [] => c :: convertLoop f rest
    else c :: convertLoop f rest

/-- Embeds `ConvertMentions` from pkg/markdown (the part_009 variant used
by `renderText`): fast path returns the text unchanged when it contains no
`@`, otherwise the scanning loop runs over the bytes. -/
def ConvertMentions (text : List Nat) : List Nat :=
  if text.contains 64 then convertLoop text.length text else text

/-- Declarative restatement of the scanning rule, written from the spec's
words as amended: an `@` starts a mention only when immediately followed by
at least one mention byte (`rest.takeWhile`-nonempty); the mention consumes
the maximal run of mention bytes; the rewrite emits `[~name]`; the byte that
terminated the run (if any) is copied through and scanning resumes after it;
every other byte, including a bare `@`, is copied literally. The amendment
relative to the original spec sentence is the byte class: `isValidMentionChar`
accepts not only ASCII letters/digits/`-`/`_` but any byte whose Latin-1 code
point Go classifies as a letter or number. -/
def mentionRewriteSpec : List Nat → List Nat
  | [] => []
  | c :: rest =>
    if c = 64 ∧ rest.takeWhile isValidMentionChar ≠ [] then
      91 :: 126 :: (rest.takeWhile isValidMentionChar
        ++ 93 :: ((rest.drop (rest.takeWhile isValidMentionChar).length).take 1
          ++ mentionRewriteSpec ((rest.drop (rest.takeWhile isValidMentionChar).length).drop 1)))
    else c :: mentionRewriteSpec rest
termination_by s => s.length
decreasing_by
  · simp only [List.length_cons, List.length_drop]
    omega
  · simp only [List.length_cons]
    omega

/-! ## Reference scanning (cmd/go-jira/main.go, `getIssueKeys`)

The default pattern is the package-level
`issueAlphanumericPattern = ([A-Z]{1,10}-[1-9][0-9]*)`. Go's regexp engine
is leftmost-first with greedy quantifiers; for this particular pattern that
semantics is deterministic: at a given byte position the only viable letter
count is the full uppercase run (a shorter take leaves an uppercase byte
where `-` is required), so a position matches exactly when its maximal
uppercase run has length 1..10 and is followed by `-`, a nonzero digit and
then the maximal digit run. `FindAllString` emits non-overlapping matches
scanning left to right, resuming after each match. -/

/-- Uppercase ASCII letter byte, the `[A-Z]` class. -/
def isUpperByte (c : Nat) : Bool := 65 ≤ c && c ≤ 90

/-- ASCII digit byte, the `[0-9]` class. -/
def isDigitByte (c : Nat) : Bool := 48 ≤ c && c ≤ 57

/-- Nonzero ASCII digit byte, the `[1-9]` class. -/
def isNonzeroDigitByte (c : Nat) : Bool := 49 ≤ c && c ≤ 57

/-- Matches `issueAlphanumericPattern` at the head of `s`: the maximal
uppercase run (1..10 letters), `-` (45), a nonzero digit, then the maximal
digit run. Returns the matched substring and the remainder after it, or
`none` when the position does not match (the scan then advances one byte,
as Go's engine does). -/
def matchIssueAt (s : List Nat) : Option (List Nat × List Nat) :=
  let run := s.takeWhile isUpperByte
  if 1 ≤ run.length ∧ run.length ≤ 10 then
    match s.dropWhile isUpperByte with
    | c :: d :: rest2 =>
      if c = 45 ∧ isNonzeroDigitByte d = true then
        some (run ++ c :: d :: rest2.takeWhile isDigitByte,
              rest2.dropWhile isDigitByte)
      else none
    | _ => none
  else none

/-- Models `pattern.FindAllString(ref, -1)` for the default pattern:
successive leftmost non-overlapping matches. `fuel` bounds the scan steps
and is instantiated with the input length (each step consumes at least one
byte, so it never runs out). -/
def findAllAux : Nat → List Nat → List (List Nat)
  | 0, _ => []
  | _ + 1, [] => []
  | f + 1, c :: rest =>
    match matchIssueAt (c :: rest) with
    | some (m, after) => m :: findAllAux f after
    | none => findAllAux f rest

/-- All default-pattern matches of a reference string, leftmost first. -/
def findAllIssues (ref : List Nat) : List (List Nat) :=
  findAllAux ref.length ref

/-- Embeds the deduplication loop of `getIssueKeys`: walk the match list,
keep a seen-set (the Go `map[string]struct\x7b\x7d` keyed by the exact
matched substring), and append first occurrences in order. -/
def dedupKeys (seen : List (List Nat)) : List (List Nat) → List (List Nat)
  | [] => []
  | m :: ms =>
    if m ∈ seen then dedupKeys seen ms
    else m :: dedupKeys (m :: seen) ms

/-- Embeds `getIssueKeys(ref, "")`, the default-pattern path: find all
matches, then deduplicate preserving first-seen order. -/
def getIssueKeysDefault (ref : List Nat) : List (List Nat) :=
  dedupKeys [] (findAllIssues ref)

/-- Independent specification of first-occurrence deduplication (the
classic nub): keep the head, delete all of its later duplicates, recurse.
This pins the order of the result to first-seen order; the theorem for the
scanner proves the seen-set loop equal to it. -/
def firstSeenDedup : List (List Nat) → List (List Nat)
  | [] => []
  | x :: xs => x :: firstSeenDedup (xs.filter (fun y => y != x))
termination_by l => l.length
decreasing_by
  simp only [List.length_cons]
  exact Nat.lt_succ_of_le (List.length_filter_le _ _)

/-- Full-string acceptor for the default pattern `[A-Z]{1,10}-[1-9][0-9]*`,
written independently from the regex: 1..10 uppercase letters, `-`, one
nonzero digit, then digits to the end. Used to state which substrings the
scanner can ever return. -/
def matchesDefaultPattern (m : List Nat) : Bool :=
  let run := m.takeWhile isUpperByte
  (1 ≤ run.length && run.length ≤ 10) &&
  (match m.dropWhile isUpperByte with
   | 45 :: d :: ds => isNonzeroDigitByte d && ds.all isDigitByte
   | _ => false)

/-- Abstraction of a compiled Go regexp, reduced to the one capability
`getIssueKeys` uses: `FindAllString(ref, -1)`. -/
structure CompiledPattern where
  findAll : List Nat → List (List Nat)

/-- Embeds `getIssueKeys(ref, issuePattern)` including the custom-pattern
path. Compilation of a caller-supplied pattern is Go stdlib behaviour
(`regexp.MustCompile`), external to this repository; it is modelled by the
oracle `compile`, where `none` means the pattern string is not a valid
regular expression, in which case `MustCompile` panics — modelled as
`Except.error ()`. A valid custom pattern fully replaces the default. -/
def getIssueKeysWith (compile : String → Option CompiledPattern)
    (ref : List Nat) (issuePattern : String) : Except Unit (List (List Nat)) :=
  if issuePattern = "" then
    Except.ok (dedupKeys [] (findAllIssues ref))
  else
    match compile issuePattern with
    | none => Except.error ()
    | some pat => Except.ok (dedupKeys [] (pat.findAll ref))

/-! ## Markdown to Jira-markup rendering (pkg/markdown/markdown.go)

`ToJira` parses the input with the external blackfriday library and walks
the resulting tree with `JiraRenderer.RenderNode`, writing into a local
buffer `w`; the walk visits containers on enter and exit and leaves once.
Only the renderer is code of this repository; parsed trees are inputs here.
Note that the conditions `r.buf.Len() > 0` inside the render methods test
the renderer's own `buf` field, which `ToJira` never writes to (all output
goes to the walk's buffer `w`); the embedding keeps both buffers distinct,
exactly as the code does. -/

/-- Models Go `unicode.IsSpace` (the class `strings.TrimSpace` trims). -/
def isGoSpaceChar (c : Char) : Bool :=
  c.toNat == 9 || c.toNat == 10 || c.toNat == 11 || c.toNat == 12 ||
  c.toNat == 13 || c.toNat == 32 || c.toNat == 0x85 || c.toNat == 0xA0 ||
  c.toNat == 0x1680 || (0x2000 ≤ c.toNat && c.toNat ≤ 0x200A) ||
  c.toNat == 0x2028 || c.toNat == 0x2029 || c.toNat == 0x202F ||
  c.toNat == 0x205F || c.toNat == 0x3000

/-- Models `strings.TrimSpace`: drop space characters from both ends. -/
def trimSpace (s : String) : String :=
  String.mk (((s.data.dropWhile isGoSpaceChar).reverse.dropWhile isGoSpaceChar).reverse)

/-- Models `strings.HasSuffix`. -/
def strHasSuffix (s t : String) : Bool := t.data.isSuffixOf s.data

/-- Models `strings.Repeat("*", n)`, the item marker run (42 is `*`). -/
def markerRepeat (n : Nat) : String := String.mk (List.replicate n (Char.ofNat 42))

/-- Embeds the `JiraRenderer` struct: its own (never written) buffer, the
in-list flag, the list nesting depth and the code-block flag. -/
structure JiraRenderer where
  buf : String
  inList : Bool
  listDepth : Nat
  inCodeBlock : Bool

/-- Embeds `NewJiraRenderer()`: empty buffer, zero depth, flags off. -/
def newJiraRenderer : JiraRenderer :=
  { buf := "", inList := false, listDepth := 0, inCodeBlock := false }

/-- Subset of the blackfriday node data the renderer dispatches on: the
node type together with its payload (heading level, link destination,
literal text, code-block info). -/
inductive NodeKind where
  | document
  | blockQuote
  | paragraph
  | heading (level : Nat)
  | list
  | item
  | strong
  | emph
  | del
  | link (dest : String)
  | image (dest : String)
  | text (lit : String)
  | code (lit : String)
  | codeBlock (info : String) (lit : String)
  | softbreak
  | hardbreak
  | horizontalRule
  | htmlBlock
  | htmlSpan
  | tableNode

/-- Models the blackfriday tree exactly as the library links it: every
node has a first-child pointer and a next-sibling pointer, either of which
may be nil. Parsing markdown into this tree is the external library's job;
trees below are stated as inputs. -/
inductive MdTree where
  | nil
  | node (kind : NodeKind) (child : MdTree) (next : MdTree)

/-- Embeds `renderBlockQuote`: a no-op. -/
def renderBlockQuote (r : JiraRenderer) (w : String) : JiraRenderer × String := (r, w)

/-- Embeds `renderHorizontalRule`. -/
def renderHorizontalRule (r : JiraRenderer) (w : String) : JiraRenderer × String :=
  (r, w ++ "----\n")

/-- Embeds `renderImage`. -/
def renderImage (r : JiraRenderer) (w : String) (dest : String) (entering : Bool) :
    JiraRenderer × String :=
  if entering then (r, w ++ "!") else (r, w ++ "|" ++ dest ++ "!")

/-- Embeds `renderSoftbreak`. -/
def renderSoftbreak (r : JiraRenderer) (w : String) : JiraRenderer × String :=
  (r, w ++ " ")

/-- Embeds `renderParagraph`: a separating newline on enter only outside a
list and with a non-empty renderer buffer; a newline on every exit. -/
def renderParagraph (r : JiraRenderer) (w : String) (entering : Bool) :
    JiraRenderer × String :=
  if entering ∧ r.inList = false ∧ 0 < r.buf.length then (r, w ++ "\n")
  else if entering = false then (r, w ++ "\n")
  else (r, w)

/-- Embeds `renderHeading`: optional separator, then `h<level>. `; newline
on exit. -/
def renderHeading (r : JiraRenderer) (w : String) (level : Nat) (entering : Bool) :
    JiraRenderer × String :=
  if entering then
    (r, (if 0 < r.buf.length then w ++ "\n" else w) ++ "h" ++ toString level ++ ". ")
  else (r, w ++ "\n")

/-- Embeds `renderText` of pkg/markdown/markdown.go: the literal is written
through unchanged. -/
def renderText (r : JiraRenderer) (w : String) (lit : String) : JiraRenderer × String :=
  (r, w ++ lit)

/-- Embeds `renderStrong`: one `*` on enter and on exit. -/
def renderStrong (r : JiraRenderer) (w : String) : JiraRenderer × String := (r, w ++ "*")

/-- Embeds `renderEmph`: one `_` on enter and on exit. -/
def renderEmph (r : JiraRenderer) (w : String) : JiraRenderer × String := (r, w ++ "_")

/-- Embeds `renderDel`: one `-` on enter and on exit. -/
def renderDel (r : JiraRenderer) (w : String) : JiraRenderer × String := (r, w ++ "-")

/-- Embeds `renderLink`. -/
def renderLink (r : JiraRenderer) (w : String) (dest : String) (entering : Bool) :
    JiraRenderer × String :=
  if entering then (r, w ++ "[") else (r, w ++ "|" ++ dest ++ "]")

/-- Embeds `renderList`: entering raises the depth and sets the flag;
exiting lowers the depth and, at depth zero, clears the flag and emits a
trailing newline. -/
def renderList (r : JiraRenderer) (w : String) (entering : Bool) :
    JiraRenderer × String :=
  if entering then ({ r with inList := true, listDepth := r.listDepth + 1 }, w)
  else
    let r2 := { r with listDepth := r.listDepth - 1 }
    if r2.listDepth = 0 then ({ r2 with inList := false }, w ++ "\n") else (r2, w)

/-- Embeds `renderItem`: on enter, a newline when the renderer buffer is
non-empty and does not already end in one, then `listDepth` copies of the
marker and a space; nothing on exit. -/
def renderItem (r : JiraRenderer) (w : String) (entering : Bool) :
    JiraRenderer × String :=
  if entering then
    (r, (if 0 < r.buf.length ∧ strHasSuffix r.buf "\n" = false then w ++ "\n" else w)
        ++ markerRepeat r.listDepth ++ " ")
  else (r, w)

/-- Embeds `renderCode` (inline code). -/
def renderCode (r : JiraRenderer) (w : String) (lit : String) : JiraRenderer × String :=
  (r, w ++ "\x7b\x7b" ++ lit ++ "\x7d\x7d")

/-- Embeds `renderCodeBlock`: on enter the code-block flag is raised, the
language defaults to `java` when the block declares none, a separating
newline appears when the renderer buffer is non-empty, then the header,
the literal content verbatim and the closing `\x7bcode\x7d` with nothing after
it; the flag is lowered again before the method returns (it ends up
`false` on every call), and the non-entering call writes nothing. -/
def renderCodeBlock (r : JiraRenderer) (w : String) (info : String) (lit : String)
    (entering : Bool) : JiraRenderer × String :=
  if entering then
    let language := if info = "" then "java" else info
    let w1 := if 0 < r.buf.length then w ++ "\n" else w
    ({ r with inCodeBlock := false },
      w1 ++ "\x7bcode:language=" ++ language ++ "\x7d\n" ++ lit ++ "\x7bcode\x7d")
  else ({ r with inCodeBlock := false }, w)

/-- Embeds `renderHardbreak`. -/
def renderHardbreak (r : JiraRenderer) (w : String) : JiraRenderer × String :=
  (r, w ++ "\n")

/-- Embeds `RenderNode`: dispatch on the node type; HTML blocks and spans
and tables are deliberate no-ops; `Document` only steers the walk. -/
def renderNode (rw : JiraRenderer × String) (k : NodeKind) (entering : Bool) :
    JiraRenderer × String :=
  match rw with
  | (r, w) =>
    match k with
    | .blockQuote => renderBlockQuote r w
    | .horizontalRule => renderHorizontalRule r w
    | .image dest => renderImage r w dest entering
    | .htmlBlock => (r, w)
    | .htmlSpan => (r, w)
    | .softbreak => renderSoftbreak r w
    | .tableNode => (r, w)
    | .document => (r, w)
    | .paragraph => renderParagraph r w entering
    | .heading level => renderHeading r w level entering
    | .text lit => renderText r w lit
    | .strong => renderStrong r w
    | .emph => renderEmph r w
    | .link dest => renderLink r w dest entering
    | .list => renderList r w entering
    | .item => renderItem r w entering
    | .code lit => renderCode r w lit
    | .codeBlock info lit => renderCodeBlock r w info lit entering
    | .hardbreak => renderHardbreak r w
    | .del => renderDel r w

/-- Container nodes are visited on enter and exit; leaves only once. This
is blackfriday's walker contract (`isContainer` in the library). -/
def isContainer : NodeKind → Bool
  | .document => true
  | .blockQuote => true
  | .paragraph => true
  | .heading _ => true
  | .list => true
  | .item => true
  | .strong => true
  | .emph => true
  | .del => true
  | .link _ => true
  | .image _ => true
  | _ => false

/-- Models `ast.Walk` with the renderer visitor: a node is visited on
enter, then its children, then (for containers) on exit, then its next
sibling; every visit calls `RenderNode`, which always answers `GoToNext`. -/
def walkTree (rw : JiraRenderer × String) : MdTree → JiraRenderer × String
  | .nil => rw
  | .node k child next =>
    let rw1 := renderNode rw k true
    let rw2 := walkTree rw1 child
    let rw3 := if isContainer k then renderNode rw2 k false else rw2
    walkTree rw3 next

/-- Embeds `ToJira` applied to an already-parsed tree: fresh renderer,
empty walk buffer, full walk, final `TrimSpace`. -/
def toJiraAST (docTree : MdTree) : String :=
  trimSpace ((walkTree (newJiraRenderer, "") docTree).2)

/-- Blackfriday's parse tree for the input
`* item 1\n  * nested\n* item 2`: a two-item list whose first item holds a
paragraph and a nested single-item list as siblings (tight-list items still
wrap their text in paragraph nodes). -/
def nestedListDoc : MdTree :=
  .node .document
    (.node .list
      (.node .item
        (.node .paragraph (.node (.text "item 1") .nil .nil)
          (.node .list
            (.node .item
              (.node .paragraph (.node (.text "nested") .nil .nil) .nil)
              .nil)
            .nil))
        (.node .item
          (.node .paragraph (.node (.text "item 2") .nil .nil) .nil)
          .nil))
      .nil)
    .nil

/-! ## Batch operations (cmd/go-jira/main.go)

Each operation spawns one goroutine per item, funnels per-item outcomes
through a channel sized to the item count, waits on a `WaitGroup` barrier
and then reduces. The remote call of each task is an oracle argument:
`Except.error e` is a transport error (`err != nil`), `Except.ok status`
is a response with that status code. Channel collection order is
nondeterministic in Go; the embedding determinizes it to input order,
which is invisible to the theorems below (they speak about counts,
emptiness and the aggregate error only). -/

/-- Lowercase an ASCII uppercase character, identity otherwise. -/
def lowerAscii (c : Char) : Char :=
  if 65 ≤ c.toNat ∧ c.toNat ≤ 90 then Char.ofNat (c.toNat + 32) else c

/-- Character-by-character case-insensitive comparison. -/
def foldCharList : List Char → List Char → Bool
  | [], [] => true
  | a :: as, b :: bs => (lowerAscii a == lowerAscii b) && foldCharList as bs
  | _, _ => false

/-- Models `strings.EqualFold` restricted to ASCII case folding (Unicode
simple folding coincides with this on ASCII, which is all the compared
transition and resolution names here exercise). -/
def asciiEqualFold (s t : String) : Bool := foldCharList s.data t.data

/-- Transition data carried on a fetched issue: opaque id, display name. -/
structure Transition where
  id : String
  name : String

/-- Issue snapshot as the batch phases use it: the key and the expanded
legal-transition list (summary and status are only logged, not branched
on, and are omitted). -/
structure Issue where
  key : String
  transitions : List Transition

/-- Decides whether an `Except` result is a success. -/
def isOkResult {α : Type} : Except String α → Bool
  | Except.ok _ => true
  | Except.error _ => false

/-- Embeds the body of one fetch goroutine in `processIssues`: transport
error or non-200 status classify the item as a fetch failure, otherwise
the issue snapshot is the success value. -/
def fetchIssue (oracle : String → Except String (Nat × Issue)) (key : String) :
    Except String Issue :=
  match oracle key with
  | Except.error e => Except.error e
  | Except.ok (status, iss) =>
    if status = 200 then Except.ok iss
    else Except.error ("unexpected status: " ++ toString status)

/-- Embeds `processIssues`: an empty key list is an error before any call;
otherwise every key is fetched (concurrently in Go), failed items are
logged and dropped, and the collected successes come back with a nil
batch error. -/
def processIssues (oracle : String → Except String (Nat × Issue))
    (issueKeys : List String) : Except String (List Issue) :=
  if issueKeys.length = 0 then Except.error "no issue keys found in ref"
  else Except.ok ((issueKeys.map (fetchIssue oracle)).filterMap Except.toOption)

/-- Embeds the body of one goroutine in `processAssignee`: transport error
or status other than 204 (`StatusNoContent`) sends an error down the
channel; a 204 response only logs. -/
def updateAssigneeTask (call : String → Except String Nat) (iss : Issue) :
    Option String :=
  match call iss.key with
  | Except.error e => some e
  | Except.ok status =>
    if status = 204 then none
    else some ("unexpected status: " ++ toString status)

/-- Embeds `processAssignee`: run every task, collect the channel, and
produce the count-bearing aggregate error exactly when any task failed. -/
def processAssignee (call : String → Except String Nat) (issues : List Issue) :
    Option String :=
  let errs := issues.filterMap (updateAssigneeTask call)
  if 0 < errs.length then
    some ("encountered " ++ toString errs.length ++ " errors while updating assignees")
  else none

/-- Embeds the body of one goroutine in `addComments`: transport error or
status other than 201 (`StatusCreated`) is a per-item failure. -/
def addCommentTask (call : String → Except String Nat) (iss : Issue) :
    Option String :=
  match call iss.key with
  | Except.error e => some e
  | Except.ok status =>
    if status = 201 then none
    else some ("unexpected status: " ++ toString status)

/-- Embeds `addComments`: same aggregation shape as `processAssignee`. -/
def addComments (call : String → Except String Nat) (issues : List Issue) :
    Option String :=
  let errs := issues.filterMap (addCommentTask call)
  if 0 < errs.length then
    some ("encountered " ++ toString errs.length ++ " errors while adding comments")
  else none

/-- Embeds the transition scan inside one `processTransitions` goroutine:
walk the issue's legal transitions; on every case-insensitive name match,
fire the transition call (the oracle takes issue key, transition id and
the optional resolution id of the payload); a transport error or a status
other than 204 sends that error down the channel and stops the scan; a 204
response continues scanning (the Go loop has no break). The flag records
whether any transition matched; when none did the Go code only logs a
warning. -/
def transitionLoop (call : String → String → Option String → Except String Nat)
    (key toTransition : String) (res : Option String) :
    List Transition → Bool → Option String × Bool
  | [], found => (none, found)
  | t :: ts, found =>
    if asciiEqualFold t.name toTransition then
      match call key t.id res with
      | Except.error e => (some e, true)
      | Except.ok status =>
        if status = 204 then transitionLoop call key toTransition res ts true
        else (some ("unexpected status: " ++ toString status), true)
    else transitionLoop call key toTransition res ts found

/-- Embeds one `processTransitions` goroutine: build the optional
resolution id (set only when non-empty) and scan the transition list. The
returned option is what the goroutine sends to the error channel. -/
def transitionTask (call : String → String → Option String → Except String Nat)
    (toTransition resolution : String) (iss : Issue) : Option String :=
  let res := if resolution = "" then none else some resolution
  (transitionLoop call iss.key toTransition res iss.transitions false).1

/-- Embeds `processTransitions`: run every task and produce the
count-bearing aggregate error exactly when any task failed. -/
def processTransitions (call : String → String → Option String → Except String Nat)
    (toTransition resolution : String) (issues : List Issue) : Option String :=
  let errs := issues.filterMap (transitionTask call toTransition resolution)
  if 0 < errs.length then
    some ("encountered " ++ toString errs.length ++ " errors while processing transitions")
  else none

/-- Resolution entry of the server's resolution list. -/
structure Resolution where
  id : String
  name : String

/-- Embeds the lookup loop of `getResolutionID`: first case-insensitive
name match wins; no match yields the empty id. -/
def resolutionLoop (resolution : String) : List Resolution → String
  | [] => ""
  | r :: rs => if asciiEqualFold r.name resolution then r.id else resolutionLoop resolution rs

/-- Embeds `getResolutionID`: a transport error is returned as-is, a
non-200 status is an error naming the status, and a 200 response yields
the id of the first case-insensitive match — the empty string, with a nil
error, when nothing matches. The call result (error/status/list) is the
oracle input. -/
def getResolutionID (callResult : Except String (Nat × List Resolution))
    (resolution : String) : Except String String :=
  match callResult with
  | Except.error e => Except.error e
  | Except.ok (status, rs) =>
    if status = 200 then Except.ok (resolutionLoop resolution rs)
    else Except.error ("error getting resolution: " ++ toString status)

theorem dropWhile_eq_drop_len_takeWhile (p : Nat → Bool) (l : List Nat) :
    l.dropWhile p = l.drop (l.takeWhile p).length := by
  calc l.dropWhile p
      = List.drop (l.takeWhile p).length (l.takeWhile p ++ l.dropWhile p) :=
          (List.drop_left _ _).symm
    _ = l.drop (l.takeWhile p).length := by
          rw [List.takeWhile_append_dropWhile]

theorem convertLoop_nil (f : Nat) : convertLoop f [] = [] := by
  cases f <;> rfl

theorem mentionRewriteSpec_nil : mentionRewriteSpec [] = [] := by
  rw [mentionRewriteSpec]

theorem convertLoop_eq_spec :
    ∀ f s, s.length ≤ f → convertLoop f s = mentionRewriteSpec s := by
  intro f
  induction f with
  | zero =>
    intro s hs
    have : s = [] := List.length_eq_zero.mp (Nat.le_zero.mp hs)
    subst this
    rw [convertLoop_nil, mentionRewriteSpec_nil]
  | succ f ih =>
    intro s hs
    match s with
    | [] => rw [convertLoop_nil, mentionRewriteSpec_nil]
    | c :: rest =>
      have hrest : rest.length ≤ f := by
        simpa [Nat.succ_le_succ_iff] using hs
      by_cases hc : c = 64
      · subst hc
        match hr : rest with
        | [] =>
          simp [convertLoop, mentionRewriteSpec, convertLoop_nil]
        | d :: rest2 =>
          by_cases hd : isValidMentionChar d
          · have hname : (d :: rest2).takeWhile isValidMentionChar
                = d :: rest2.takeWhile isValidMentionChar := by
              simp [List.takeWhile_cons, hd]
            have hdrop := dropWhile_eq_drop_len_takeWhile isValidMentionChar (d :: rest2)
            rw [show convertLoop (f + 1) (64 :: d :: rest2)
                = 91 :: 126 :: ((d :: rest2).takeWhile isValidMentionChar
                  ++ 93 :: (match (d :: rest2).dropWhile isValidMentionChar with
                            | [] => []
                            | t :: ts => t :: convertLoop f ts)) by
              simp [convertLoop, hd]]
            rw [show mentionRewriteSpec (64 :: d :: rest2)
                = 91 :: 126 :: ((d :: rest2).takeWhile isValidMentionChar
                  ++ 93 :: (((d :: rest2).drop
                        ((d :: rest2).takeWhile isValidMentionChar).length).take 1
                    ++ mentionRewriteSpec (((d :: rest2).drop
                        ((d :: rest2).takeWhile isValidMentionChar).length).drop 1))) by
              rw [mentionRewriteSpec]
              simp [hname]]
            rw [← hdrop]
            have hlen : ((d :: rest2).dropWhile isValidMentionChar).length ≤ rest2.length := by
              rw [List.dropWhile_cons, if_pos hd, dropWhile_eq_drop_len_takeWhile]
              simp
            match hafter : (d :: rest2).dropWhile isValidMentionChar with
            | [] => simp [mentionRewriteSpec_nil]
            | t :: ts =>
              have hts : ts.length ≤ f := by
                have := hlen
                rw [hafter] at this
                simp only [List.length_cons] at this
                have h2 : rest2.length + 1 ≤ f := by
                  simpa using hrest
                omega
              simp [ih ts hts]
          · have hname : (d :: rest2).takeWhile isValidMentionChar = [] := by
              simp [List.takeWhile_cons, hd]
            rw [show convertLoop (f + 1) (64 :: d :: rest2)
                = 64 :: convertLoop f (d :: rest2) by simp [convertLoop, hd]]
            rw [show mentionRewriteSpec (64 :: d :: rest2)
                = 64 :: mentionRewriteSpec (d :: rest2) by
              rw [mentionRewriteSpec]
              simp [hname]]
            rw [ih _ hrest]
      · rw [show convertLoop (f + 1) (c :: rest) = c :: convertLoop f rest by
          simp [convertLoop, hc]]
        rw [show mentionRewriteSpec (c :: rest) = c :: mentionRewriteSpec rest by
          rw [mentionRewriteSpec]
          simp [hc]]
        rw [ih _ hrest]

theorem dedupKeys_fresh_nodup :
    ∀ (ms seen : List (List Nat)),
      (∀ x ∈ dedupKeys seen ms, x ∉ seen) ∧ (dedupKeys seen ms).Nodup := by
  intro ms
  induction ms with
  | nil =>
    intro seen
    exact ⟨fun x hx => (List.not_mem_nil x hx).elim, List.nodup_nil⟩
  | cons m ms ih =>
    intro seen
    by_cases hm : m ∈ seen
    · simpa [dedupKeys, hm] using ih seen
    · constructor
      · intro x hx
        rw [show dedupKeys seen (m :: ms) = m :: dedupKeys (m :: seen) ms by
          simp [dedupKeys, hm]] at hx
        rcases List.mem_cons.mp hx with rfl | hx2
        · exact hm
        · intro hxs
          exact (ih (m :: seen)).1 x hx2 (List.mem_cons.mpr (Or.inr hxs))
      · rw [show dedupKeys seen (m :: ms) = m :: dedupKeys (m :: seen) ms by
          simp [dedupKeys, hm]]
        refine List.nodup_cons.mpr ⟨?_, (ih (m :: seen)).2⟩
        intro hmem
        exact (ih (m :: seen)).1 m hmem (List.mem_cons.mpr (Or.inl rfl))

theorem dedupKeys_sublist :
    ∀ (ms seen : List (List Nat)), List.Sublist (dedupKeys seen ms) ms := by
  intro ms
  induction ms with
  | nil => intro seen; simp [dedupKeys]
  | cons m ms ih =>
    intro seen
    by_cases hm : m ∈ seen
    · rw [show dedupKeys seen (m :: ms) = dedupKeys seen ms by simp [dedupKeys, hm]]
      exact List.Sublist.cons m (ih seen)
    · rw [show dedupKeys seen (m :: ms) = m :: dedupKeys (m :: seen) ms by
        simp [dedupKeys, hm]]
      exact List.Sublist.cons₂ m (ih (m :: seen))

theorem dedupKeys_complete :
    ∀ (ms seen : List (List Nat)) (x : List Nat),
      x ∈ ms → x ∈ dedupKeys seen ms ∨ x ∈ seen := by
  intro ms
  induction ms with
  | nil => intro seen x hx; cases hx
  | cons m ms ih =>
    intro seen x hx
    by_cases hm : m ∈ seen
    · rw [show dedupKeys seen (m :: ms) = dedupKeys seen ms by simp [dedupKeys, hm]]
      rcases List.mem_cons.mp hx with rfl | hx2
      · exact Or.inr hm
      · exact ih seen x hx2
    · rw [show dedupKeys seen (m :: ms) = m :: dedupKeys (m :: seen) ms by
        simp [dedupKeys, hm]]
      rcases List.mem_cons.mp hx with rfl | hx2
      · exact Or.inl (List.mem_cons.mpr (Or.inl rfl))
      · rcases ih (m :: seen) x hx2 with h1 | h2
        · exact Or.inl (List.mem_cons.mpr (Or.inr h1))
        · rcases List.mem_cons.mp h2 with rfl | h3
          · exact Or.inl (List.mem_cons.mpr (Or.inl rfl))
          · exact Or.inr h3

theorem dedupKeys_eq_firstSeen :
    ∀ (ms seen : List (List Nat)),
      dedupKeys seen ms
        = firstSeenDedup (ms.filter (fun m => decide (m ∉ seen))) := by
  intro ms
  induction ms with
  | nil =>
    intro seen
    rw [show (([] : List (List Nat)).filter (fun m => decide (m ∉ seen))) = []
      from rfl]
    rw [show dedupKeys seen [] = [] from rfl]
    rw [firstSeenDedup]
  | cons m ms ih =>
    intro seen
    by_cases hm : m ∈ seen
    · have hfilter : (m :: ms).filter (fun a => decide (a ∉ seen))
          = ms.filter (fun a => decide (a ∉ seen)) := by
        rw [List.filter_cons]
        simp [hm]
      rw [hfilter,
        show dedupKeys seen (m :: ms) = dedupKeys seen ms by simp [dedupKeys, hm]]
      exact ih seen
    · have hfilter : (m :: ms).filter (fun a => decide (a ∉ seen))
          = m :: ms.filter (fun a => decide (a ∉ seen)) := by
        rw [List.filter_cons]
        simp [hm]
      rw [hfilter,
        show dedupKeys seen (m :: ms) = m :: dedupKeys (m :: seen) ms by
          simp [dedupKeys, hm]]
      rw [firstSeenDedup]
      congr 1
      rw [ih (m :: seen)]
      congr 1
      rw [List.filter_filter]
      apply List.filter_congr
      intro a _
      by_cases h1 : a = m
      · subst h1
        simp [List.mem_cons]
      · by_cases h2 : a ∈ seen
        · simp [List.mem_cons, h1, h2]
        · simp [List.mem_cons, h1, h2]

theorem takeWhile_all_append (p : Nat → Bool) :
    ∀ (xs : List Nat) (y : Nat) (ys : List Nat),
      (∀ x ∈ xs, p x = true) → p y = false →
      (xs ++ y :: ys).takeWhile p = xs := by
  intro xs
  induction xs with
  | nil => intro y ys _ hy; simp [List.takeWhile_cons, hy]
  | cons a as ih =>
    intro y ys h hy
    have ha : p a = true := h a (List.mem_cons.mpr (Or.inl rfl))
    have has : ∀ x ∈ as, p x = true :=
      fun x hx => h x (List.mem_cons.mpr (Or.inr hx))
    simp [List.takeWhile_cons, ha, ih y ys has hy]

theorem dropWhile_all_append (p : Nat → Bool) :
    ∀ (xs : List Nat) (y : Nat) (ys : List Nat),
      (∀ x ∈ xs, p x = true) → p y = false →
      (xs ++ y :: ys).dropWhile p = y :: ys := by
  intro xs
  induction xs with
  | nil => intro y ys _ hy; simp [List.dropWhile_cons, hy]
  | cons a as ih =>
    intro y ys h hy
    have ha : p a = true := h a (List.mem_cons.mpr (Or.inl rfl))
    have has : ∀ x ∈ as, p x = true :=
      fun x hx => h x (List.mem_cons.mpr (Or.inr hx))
    simp [List.dropWhile_cons, ha, ih y ys has hy]

theorem matchIssueAt_sound (s m after : List Nat)
    (h : matchIssueAt s = some (m, after)) : matchesDefaultPattern m = true := by
  have h2 : (if 1 ≤ (s.takeWhile isUpperByte).length ∧ (s.takeWhile isUpperByte).length ≤ 10 then
      match s.dropWhile isUpperByte with
      | c :: d :: rest2 =>
        if c = 45 ∧ isNonzeroDigitByte d = true then
          some (s.takeWhile isUpperByte ++ c :: d :: rest2.takeWhile isDigitByte,
                rest2.dropWhile isDigitByte)
        else none
      | _ => none
    else none) = some (m, after) := h
  clear h
  by_cases hlen : 1 ≤ (s.takeWhile isUpperByte).length ∧ (s.takeWhile isUpperByte).length ≤ 10
  · rw [if_pos hlen] at h2
    rcases hdw : s.dropWhile isUpperByte with _ | ⟨c, _ | ⟨d, rest2⟩⟩
    · rw [hdw] at h2
      cases h2
    · rw [hdw] at h2
      cases h2
    · rw [hdw] at h2
      by_cases hcd : c = 45 ∧ isNonzeroDigitByte d = true
      · rw [show (match c :: d :: rest2 with
            | c :: d :: rest2 =>
              if c = 45 ∧ isNonzeroDigitByte d = true then
                some (s.takeWhile isUpperByte ++ c :: d :: rest2.takeWhile isDigitByte,
                      rest2.dropWhile isDigitByte)
              else none
            | _ => none)
            = if c = 45 ∧ isNonzeroDigitByte d = true then
                some (s.takeWhile isUpperByte ++ c :: d :: rest2.takeWhile isDigitByte,
                      rest2.dropWhile isDigitByte)
              else none from rfl, if_pos hcd] at h2
        obtain ⟨hc, hdig⟩ := hcd
        subst hc
        injection h2 with h3
        injection h3 with hm hafter
        subst hm
        have hrun : ∀ x ∈ s.takeWhile isUpperByte, isUpperByte x = true :=
          fun x hx => List.mem_takeWhile_imp hx
        have h45 : isUpperByte 45 = false := by decide
        have htw := takeWhile_all_append isUpperByte (s.takeWhile isUpperByte) 45
          (d :: rest2.takeWhile isDigitByte) hrun h45
        have hdwm := dropWhile_all_append isUpperByte (s.takeWhile isUpperByte) 45
          (d :: rest2.takeWhile isDigitByte) hrun h45
        have hshape : matchesDefaultPattern
            (s.takeWhile isUpperByte ++ 45 :: d :: rest2.takeWhile isDigitByte)
            = ((1 ≤ ((s.takeWhile isUpperByte
                  ++ 45 :: d :: rest2.takeWhile isDigitByte).takeWhile
                    isUpperByte).length
                && ((s.takeWhile isUpperByte
                  ++ 45 :: d :: rest2.takeWhile isDigitByte).takeWhile
                    isUpperByte).length ≤ 10)
              && (match (s.takeWhile isUpperByte
                  ++ 45 :: d :: rest2.takeWhile isDigitByte).dropWhile isUpperByte with
                | 45 :: d :: ds => isNonzeroDigitByte d && ds.all isDigitByte
                | _ => false)) := rfl
        rw [hshape, htw, hdwm]
        simp only [Bool.and_eq_true, decide_eq_true_eq]
        exact ⟨⟨hlen.1, hlen.2⟩, hdig,
          List.all_eq_true.mpr (fun x hx => List.mem_takeWhile_imp hx)⟩
      · rw [show (match c :: d :: rest2 with
            | c :: d :: rest2 =>
              if c = 45 ∧ isNonzeroDigitByte d = true then
                some (s.takeWhile isUpperByte ++ c :: d :: rest2.takeWhile isDigitByte,
                      rest2.dropWhile isDigitByte)
              else none
            | _ => none)
            = if c = 45 ∧ isNonzeroDigitByte d = true then
                some (s.takeWhile isUpperByte ++ c :: d :: rest2.takeWhile isDigitByte,
                      rest2.dropWhile isDigitByte)
              else none from rfl, if_neg hcd] at h2
        cases h2
  · rw [if_neg hlen] at h2
    cases h2

theorem findAllAux_sound :
    ∀ (f : Nat) (s : List Nat) (m : List Nat),
      m ∈ findAllAux f s → matchesDefaultPattern m = true := by
  intro f
  induction f with
  | zero => intro s m h; cases h
  | succ f ih =>
    intro s m h
    match s with
    | [] => cases h
    | c :: rest =>
      unfold findAllAux at h
      cases hm : matchIssueAt (c :: rest) with
      | none =>
        rw [hm] at h
        exact ih rest m h
      | some pr =>
        obtain ⟨m0, after⟩ := pr
        rw [hm] at h
        rcases List.mem_cons.mp h with rfl | h2
        · exact matchIssueAt_sound _ _ _ hm
        · exact ih after m h2

theorem exceptOk_count {α : Type} :
    ∀ l : List (Except String α),
      (l.filterMap Except.toOption).length
        + (l.filter (fun r => !isOkResult r)).length = l.length := by
  intro l
  induction l with
  | nil => rfl
  | cons a l ih =>
    cases a with
    | ok v =>
      rw [List.filterMap_cons, List.filter_cons]
      simp only [show Except.toOption (Except.ok v : Except String α) = some v from rfl,
        show isOkResult (Except.ok v : Except String α) = true from rfl,
        Bool.not_true, List.length_cons]
      simp only [Bool.false_eq_true, if_false]
      omega
    | error e =>
      rw [List.filterMap_cons, List.filter_cons]
      simp only [show Except.toOption (Except.error e : Except String α) = none from rfl,
        show isOkResult (Except.error e : Except String α) = false from rfl,
        Bool.not_false, List.length_cons, if_true]
      omega

theorem taskNone_count :
    ∀ (l : List Issue) (f : Issue → Option String),
      (l.filter (fun i => (f i).isNone)).length + (l.filterMap f).length
        = l.length := by
  intro l f
  induction l with
  | nil => rfl
  | cons a l ih =>
    rw [List.filter_cons, List.filterMap_cons]
    cases hf : f a with
    | none =>
      simp only [hf, Option.isNone_none, List.length_cons, if_true]
      omega
    | some e =>
      simp only [hf, Option.isNone_some, List.length_cons]
      simp only [Bool.false_eq_true, if_false]
      omega

theorem resolutionLoop_eq_find (resolution : String) :
    ∀ rs : List Resolution,
      resolutionLoop resolution rs
        = ((rs.find? (fun r => asciiEqualFold r.name resolution)).map
            Resolution.id).getD "" := by
  intro rs
  induction rs with
  | nil => rfl
  | cons r rs ih =>
    by_cases h : asciiEqualFold r.name resolution
    · simp [resolutionLoop, List.find?_cons, h]
    · simp only [resolutionLoop, List.find?_cons]
      rw [show (asciiEqualFold r.name resolution) = false by simpa using h]
      simpa [h] using ih

theorem transitionLoop_no_match
    (call : String → String → Option String → Except String Nat)
    (key toTransition : String) (res : Option String) :
    ∀ (ts : List Transition) (found : Bool),
      (∀ t ∈ ts, asciiEqualFold t.name toTransition = false) →
      transitionLoop call key toTransition res ts found = (none, found) := by
  intro ts
  induction ts with
  | nil => intro found _; rfl
  | cons t ts ih =>
    intro found h
    have ht : asciiEqualFold t.name toTransition = false :=
      h t (List.mem_cons.mpr (Or.inl rfl))
    have hts : ∀ x ∈ ts, asciiEqualFold x.name toTransition = false :=
      fun x hx => h x (List.mem_cons.mpr (Or.inr hx))
    simp [transitionLoop, ht, ih found hts]

theorem mentionRewriteSpec_of_no_at :
    ∀ s : List Nat, s.contains 64 = false → mentionRewriteSpec s = s := by
  intro s
  induction s with
  | nil => intro _; exact mentionRewriteSpec_nil
  | cons c rest ih =>
    intro h
    have hc : c ≠ 64 := by
      intro hc
      subst hc
      simp [List.contains_cons] at h
    have hrest : rest.contains 64 = false := by
      simp [List.contains_cons] at h
      simpa using h.2
    rw [mentionRewriteSpec]
    simp only [hc, false_and, if_false]
    rw [ih hrest]

/-! ## Claim theorems -/

/-- C1 (amended): for each mutation phase (transition, assignee, comment)
a batch of N items with k per-item failures yields a non-nil aggregate
error naming k exactly when k > 0, with the other N − k items succeeding,
and for N = 0 returns nil without calling the oracle; the fetch phase
instead logs and drops its k failures, returning the N − k fetched issues
with a nil batch error (it errors only when the key list itself is empty,
before any remote call). -/
theorem batch_aggregation_amended (oracle : String → Except String (Nat × Issue))
    (keys : List String) (call : String → Except String Nat)
    (tcall : String → String → Option String → Except String Nat)
    (toTransition resolution : String)
    (ccall : String → Except String Nat) (issues : List Issue) :
    (keys ≠ [] →
      processIssues oracle keys
        = Except.ok ((keys.map (fetchIssue oracle)).filterMap Except.toOption) ∧
      ((keys.map (fetchIssue oracle)).filterMap Except.toOption).length
        = keys.length
          - ((keys.map (fetchIssue oracle)).filter (fun r => !isOkResult r)).length) ∧
    (processIssues oracle [] = Except.error "no issue keys found in ref") ∧
    (processAssignee call issues = none ↔
      issues.filterMap (updateAssigneeTask call) = []) ∧
    (0 < (issues.filterMap (updateAssigneeTask call)).length →
      processAssignee call issues
        = some ("encountered "
            ++ toString (issues.filterMap (updateAssigneeTask call)).length
            ++ " errors while updating assignees")) ∧
    ((issues.filter (fun i => (updateAssigneeTask call i).isNone)).length
      = issues.length - (issues.filterMap (updateAssigneeTask call)).length) ∧
    (processAssignee call [] = none) ∧
    (processTransitions tcall toTransition resolution issues = none ↔
      issues.filterMap (transitionTask tcall toTransition resolution) = []) ∧
    (0 < (issues.filterMap (transitionTask tcall toTransition resolution)).length →
      processTransitions tcall toTransition resolution issues
        = some ("encountered "
            ++ toString (issues.filterMap
                (transitionTask tcall toTransition resolution)).length
            ++ " errors while processing transitions")) ∧
    ((issues.filter
        (fun i => (transitionTask tcall toTransition resolution i).isNone)).length
      = issues.length
        - (issues.filterMap (transitionTask tcall toTransition resolution)).length) ∧
    (processTransitions tcall toTransition resolution [] = none) ∧
    (addComments ccall issues = none ↔
      issues.filterMap (addCommentTask ccall) = []) ∧
    (0 < (issues.filterMap (addCommentTask ccall)).length →
      addComments ccall issues
        = some ("encountered "
            ++ toString (issues.filterMap (addCommentTask ccall)).length
            ++ " errors while adding comments")) ∧
    ((issues.filter (fun i => (addCommentTask ccall i).isNone)).length
      = issues.length - (issues.filterMap (addCommentTask ccall)).length) ∧
    (addComments ccall [] = none) := by
  have hPA : processAssignee call issues
      = if 0 < (issues.filterMap (updateAssigneeTask call)).length
        then some ("encountered "
          ++ toString (issues.filterMap (updateAssigneeTask call)).length
          ++ " errors while updating assignees")
        else none := rfl
  have hPT : processTransitions tcall toTransition resolution issues
      = if 0 < (issues.filterMap (transitionTask tcall toTransition resolution)).length
        then some ("encountered "
          ++ toString (issues.filterMap
              (transitionTask tcall toTransition resolution)).length
          ++ " errors while processing transitions")
        else none := rfl
  have hAC : addComments ccall issues
      = if 0 < (issues.filterMap (addCommentTask ccall)).length
        then some ("encountered "
          ++ toString (issues.filterMap (addCommentTask ccall)).length
          ++ " errors while adding comments")
        else none := rfl
  refine ⟨?_, rfl, ?_, ?_, ?_, rfl, ?_, ?_, ?_, rfl, ?_, ?_, ?_, rfl⟩
  · intro hk
    have hlen0 : ¬ keys.length = 0 := by
      intro h0
      exact hk (List.length_eq_zero.mp h0)
    constructor
    · have h2 : processIssues oracle keys
          = if keys.length = 0 then Except.error "no issue keys found in ref"
            else Except.ok ((keys.map (fetchIssue oracle)).filterMap Except.toOption) := rfl
      rw [h2, if_neg hlen0]
    · have hcount := exceptOk_count (α := Issue) (keys.map (fetchIssue oracle))
      have hmap : (keys.map (fetchIssue oracle)).length = keys.length :=
        List.length_map _ _
      omega
  · constructor
    · intro h
      by_contra hne
      rw [hPA, if_pos (List.length_pos.mpr hne)] at h
      cases h
    · intro h
      rw [hPA, h]
      rfl
  · intro hpos
    rw [hPA, if_pos hpos]
  · have := taskNone_count issues (updateAssigneeTask call)
    omega
  · constructor
    · intro h
      by_contra hne
      rw [hPT, if_pos (List.length_pos.mpr hne)] at h
      cases h
    · intro h
      rw [hPT, h]
      rfl
  · intro hpos
    rw [hPT, if_pos hpos]
  · have := taskNone_count issues (transitionTask tcall toTransition resolution)
    omega
  · constructor
    · intro h
      by_contra hne
      rw [hAC, if_pos (List.length_pos.mpr hne)] at h
      cases h
    · intro h
      rw [hAC, h]
      rfl
  · intro hpos
    rw [hAC, if_pos hpos]
  · have := taskNone_count issues (addCommentTask ccall)
    omega

/-- C1 witness: with keys ["A", "B"] where "A" fails in transport and "B"
answers 200, the fetch phase returns exactly the one success and a nil
error; with one issue whose assignee, transition and comment calls all
fail, each mutation phase reports exactly one error. -/
theorem batch_aggregation_amended_witness :
    ((["A", "B"] : List String) ≠ []) ∧
    processIssues
        (fun k => if k = "A" then Except.error "x"
                  else Except.ok (200, { key := "B", transitions := [] }))
        ["A", "B"]
      = Except.ok [{ key := "B", transitions := [] }] ∧
    processAssignee (fun _ => Except.error "y")
        [{ key := "B", transitions := [{ id := "7", name := "Done" }] }]
      = some ("encountered " ++ toString 1 ++ " errors while updating assignees") ∧
    processTransitions (fun _ _ _ => Except.error "z") "Done" ""
        [{ key := "B", transitions := [{ id := "7", name := "Done" }] }]
      = some ("encountered " ++ toString 1 ++ " errors while processing transitions") ∧
    addComments (fun _ => Except.error "w")
        [{ key := "B", transitions := [{ id := "7", name := "Done" }] }]
      = some ("encountered " ++ toString 1 ++ " errors while adding comments") := by
  obtain ⟨hf, _, _, hac, _, _, _, htc, _, _, _, hcc, _, _⟩ :=
    batch_aggregation_amended
      (fun k => if k = "A" then Except.error "x"
                else Except.ok (200, { key := "B", transitions := [] }))
      ["A", "B"] (fun _ => Except.error "y") (fun _ _ _ => Except.error "z")
      "Done" "" (fun _ => Except.error "w")
      [{ key := "B", transitions := [{ id := "7", name := "Done" }] }]
  refine ⟨by decide, ?_, ?_, ?_, ?_⟩
  · rw [(hf (by decide)).1]
    rfl
  · exact hac (by decide)
  · exact htc (by decide)
  · exact hcc (by decide)

/-- C1 counterexample: the fetch phase with N = 1 item whose remote call
fails (k = 1) returns zero successes and a NIL aggregate error
(`Except.ok []`), where the claim requires a non-nil aggregate error for
k > 0. -/
theorem batch_aggregation_cex :
    processIssues (fun _ => Except.error "boom") ["ABC-1"] = Except.ok [] ∧
    isOkResult (fetchIssue (fun _ => Except.error "boom") "ABC-1") = false :=
  ⟨rfl, rfl⟩

/-- C2 (amended): the mention rewrite is idempotent on every input whose
rewrite output contains no `@` (64): the fast path then returns the output
unchanged. In general the rewrite is not idempotent — when a mention is
terminated by a second `@`, that `@` is copied literally into the output
and a second pass rewrites it (see the counterexample). -/
theorem convertMentions_idempotent_amended (x : List Nat)
    (h : (ConvertMentions x).contains 64 = false) :
    ConvertMentions (ConvertMentions x) = ConvertMentions x := by
  have h2 : ConvertMentions (ConvertMentions x)
      = if (ConvertMentions x).contains 64 then
          convertLoop (ConvertMentions x).length (ConvertMentions x)
        else ConvertMentions x := rfl
  rw [h2, h]
  rfl

/-- C2 witness: for "hi @u" ([104,105,32,64,117]) the rewrite output
"hi [~u]" contains no `@`, and a second pass leaves it unchanged. -/
theorem convertMentions_idempotent_amended_witness :
    (ConvertMentions [104, 105, 32, 64, 117]).contains 64 = false ∧
    ConvertMentions (ConvertMentions [104, 105, 32, 64, 117])
      = ConvertMentions [104, 105, 32, 64, 117] :=
  ⟨by decide, convertMentions_idempotent_amended [104, 105, 32, 64, 117] (by decide)⟩

/-- C2 counterexample: for x = "@a@b" ([64,97,64,98]) the rewrite gives
"[~a]@b" and a second pass gives "[~a][~b]", so rewrite(rewrite(x))
differs from rewrite(x). -/
theorem convertMentions_not_idempotent_cex :
    ConvertMentions [64, 97, 64, 98] = [91, 126, 97, 93, 64, 98] ∧
    ConvertMentions (ConvertMentions [64, 97, 64, 98])
      = [91, 126, 97, 93, 91, 126, 98, 93] ∧
    ConvertMentions (ConvertMentions [64, 97, 64, 98])
      ≠ ConvertMentions [64, 97, 64, 98] := by
  decide

/-- C3 (amended): a mention immediately followed by another `@` is not
split into two mentions: the `@` that terminates the first mention is
consumed and copied literally, so rewrite("@a@b") = "[~a]@b"
(bytes [91,126,97,93,64,98]). -/
theorem convertMentions_adjacent_at_amended :
    ConvertMentions [64, 97, 64, 98] = [91, 126, 97, 93, 64, 98] := by
  decide

/-- C3 counterexample: rewrite("@a@b") evaluates to "[~a]@b", which
differs from the claimed "[~a][~b]" ([91,126,97,93,91,126,98,93]). -/
theorem convertMentions_adjacent_at_cex :
    ConvertMentions [64, 97, 64, 98] = [91, 126, 97, 93, 64, 98] ∧
    ([91, 126, 97, 93, 64, 98] : List Nat) ≠ [91, 126, 97, 93, 91, 126, 98, 93] := by
  decide

/-- C4 (amended): `ConvertMentions` implements exactly the declarative
scanning rule `mentionRewriteSpec`: an `@` starts a mention iff it is
immediately followed by at least one mention byte, the mention consumes
the maximal run of mention bytes, and a bare `@` (at end of input or
followed by a non-mention byte) is copied literally — with the
mention-byte class being `isValidMentionChar`, i.e. bytes whose Latin-1
code point is a letter or number plus `-` and `_`, not the ASCII-only
class of the original sentence. -/
theorem convertMentions_scan_spec (text : List Nat) :
    ConvertMentions text = mentionRewriteSpec text := by
  by_cases h : text.contains 64 = true
  · have h1 : ConvertMentions text = convertLoop text.length text := by
      have h2 : ConvertMentions text
          = if text.contains 64 then convertLoop text.length text else text := rfl
      rw [h2, h]
      rfl
    rw [h1, convertLoop_eq_spec text.length text (Nat.le_refl _)]
  · have hb : text.contains 64 = false := by
      cases hcb : text.contains 64
      · rfl
      · exact absurd hcb h
    have h1 : ConvertMentions text = text := by
      have h2 : ConvertMentions text
          = if text.contains 64 then convertLoop text.length text else text := rfl
      rw [h2, hb]
      rfl
    rw [h1, mentionRewriteSpec_of_no_at text hb]

/-- C4 counterexample: the UTF-8 bytes of "@é" are [64,195,169]; é is not
an ASCII letter, digit, hyphen or underscore, so under the claimed
ASCII-only rule the `@` is bare and the input must pass through
unchanged — but byte 195 (Latin-1 Ã) is classified a letter, a mention
starts, and the text is mangled to [91,126,195,93,169]. -/
theorem convertMentions_scan_cex :
    isValidMentionChar 195 = true ∧
    ConvertMentions [64, 195, 169] = [91, 126, 195, 93, 169] ∧
    ConvertMentions [64, 195, 169] ≠ [64, 195, 169] := by
  decide

/-- C5: an issue whose legal-transition list has no case-insensitive match
for the requested name contributes no per-item error (the goroutine only
logs a warning and issues no transition call), and a batch in which every
task produced no error has a nil aggregate error — so a missing transition
alone never makes the batch fail. -/
theorem transition_not_found_skipped
    (call : String → String → Option String → Except String Nat)
    (toTransition resolution : String) (iss : Issue)
    (hnm : ∀ t ∈ iss.transitions, asciiEqualFold t.name toTransition = false) :
    transitionTask call toTransition resolution iss = none ∧
    ∀ issues : List Issue,
      (∀ i ∈ issues, transitionTask call toTransition resolution i = none) →
      processTransitions call toTransition resolution issues = none := by
  constructor
  · have h1 : transitionTask call toTransition resolution iss
        = (transitionLoop call iss.key toTransition
            (if resolution = "" then none else some resolution)
            iss.transitions false).1 := rfl
    rw [h1, transitionLoop_no_match _ _ _ _ _ _ hnm]
  · intro issues hall
    have hnil : issues.filterMap (transitionTask call toTransition resolution) = [] :=
      List.filterMap_eq_nil_iff.mpr hall
    have hPT : processTransitions call toTransition resolution issues
        = if 0 < (issues.filterMap (transitionTask call toTransition resolution)).length
          then some ("encountered "
            ++ toString (issues.filterMap
                (transitionTask call toTransition resolution)).length
            ++ " errors while processing transitions")
          else none := rfl
    rw [hPT, hnil]
    rfl

/-- C5 witness: the issue ABC-1 only offers transition "Done"; requesting
"Closed" yields no per-item error and a nil batch error. -/
theorem transition_not_found_skipped_witness :
    (∀ t ∈ ({ key := "ABC-1", transitions := [{ id := "7", name := "Done" }] }
        : Issue).transitions,
      asciiEqualFold t.name "Closed" = false) ∧
    transitionTask (fun _ _ _ => Except.ok 204) "Closed" ""
      { key := "ABC-1", transitions := [{ id := "7", name := "Done" }] } = none ∧
    processTransitions (fun _ _ _ => Except.ok 204) "Closed" ""
      [{ key := "ABC-1", transitions := [{ id := "7", name := "Done" }] }] = none := by
  refine ⟨by decide, ?_, ?_⟩
  · exact (transition_not_found_skipped (fun _ _ _ => Except.ok 204) "Closed" ""
      { key := "ABC-1", transitions := [{ id := "7", name := "Done" }] } (by decide)).1
  · exact (transition_not_found_skipped (fun _ _ _ => Except.ok 204) "Closed" ""
      { key := "ABC-1", transitions := [{ id := "7", name := "Done" }] } (by decide)).2
      [{ key := "ABC-1", transitions := [{ id := "7", name := "Done" }] }] (by decide)

/-- C6: with the default pattern, extraction returns the found matches in
first-seen order with no duplicates: the result equals the independent
first-occurrence dedup (`firstSeenDedup`) of the match sequence — which
pins the order — and is additionally nodup, a sublist of the match
sequence, and contains every match; every returned string fully matches
[A-Z]{1,10}-[1-9][0-9]*, and the leading-zero string "ABC-0123" neither
matches the pattern nor is ever extracted. -/
theorem getIssueKeys_default_spec (ref : List Nat) :
    getIssueKeysDefault ref = firstSeenDedup (findAllIssues ref) ∧
    (getIssueKeysDefault ref).Nodup ∧
    List.Sublist (getIssueKeysDefault ref) (findAllIssues ref) ∧
    (∀ m, m ∈ findAllIssues ref → m ∈ getIssueKeysDefault ref) ∧
    (∀ m, m ∈ getIssueKeysDefault ref → matchesDefaultPattern m = true) ∧
    matchesDefaultPattern [65, 66, 67, 45, 48, 49, 50, 51] = false ∧
    getIssueKeysDefault [65, 66, 67, 45, 48, 49, 50, 51] = [] := by
  have horder : getIssueKeysDefault ref = firstSeenDedup (findAllIssues ref) := by
    have h := dedupKeys_eq_firstSeen (findAllIssues ref) []
    rw [show ((findAllIssues ref).filter
          (fun m => decide (m ∉ ([] : List (List Nat))))) = findAllIssues ref by
        apply List.filter_eq_self.mpr
        intro a _
        simp] at h
    exact h
  refine ⟨horder,
    (dedupKeys_fresh_nodup (findAllIssues ref) []).2,
    dedupKeys_sublist (findAllIssues ref) [],
    ?_, ?_, by decide, by decide⟩
  · intro m hm
    rcases dedupKeys_complete (findAllIssues ref) [] m hm with h1 | h2
    · exact h1
    · exact absurd h2 (List.not_mem_nil m)
  · intro m hm
    have hmem : m ∈ findAllIssues ref :=
      (dedupKeys_sublist (findAllIssues ref) []).subset hm
    exact findAllAux_sound ref.length ref m hmem

/-- C6 witness: for "ABC-123 ABC-123" the match "ABC-123" is extracted
(once) and satisfies the pattern acceptor. -/
theorem getIssueKeys_default_spec_witness :
    [65, 66, 67, 45, 49, 50, 51]
      ∈ findAllIssues [65, 66, 67, 45, 49, 50, 51, 32, 65, 66, 67, 45, 49, 50, 51] ∧
    [65, 66, 67, 45, 49, 50, 51]
      ∈ getIssueKeysDefault
          [65, 66, 67, 45, 49, 50, 51, 32, 65, 66, 67, 45, 49, 50, 51] ∧
    matchesDefaultPattern [65, 66, 67, 45, 49, 50, 51] = true := by
  refine ⟨by decide, ?_, ?_⟩
  · exact (getIssueKeys_default_spec
        [65, 66, 67, 45, 49, 50, 51, 32, 65, 66, 67, 45, 49, 50, 51]).2.2.2.1
      [65, 66, 67, 45, 49, 50, 51] (by decide)
  · exact (getIssueKeys_default_spec
        [65, 66, 67, 45, 49, 50, 51, 32, 65, 66, 67, 45, 49, 50, 51]).2.2.2.2.1
      [65, 66, 67, 45, 49, 50, 51]
      ((getIssueKeys_default_spec
          [65, 66, 67, 45, 49, 50, 51, 32, 65, 66, 67, 45, 49, 50, 51]).2.2.2.1
        [65, 66, 67, 45, 49, 50, 51] (by decide))

/-- C7: resolution lookup propagates a transport error; with a 200 answer
it returns the id of the first resolution whose name matches
case-insensitively, and the empty string with no error when none matches;
any status other than 200 (hence every non-2xx status) is an error naming
the status. -/
theorem getResolutionID_spec (e : String) (status : Nat) (rs : List Resolution)
    (resolution : String) :
    getResolutionID (Except.error e) resolution = Except.error e ∧
    (status ≠ 200 →
      getResolutionID (Except.ok (status, rs)) resolution
        = Except.error ("error getting resolution: " ++ toString status)) ∧
    getResolutionID (Except.ok (200, rs)) resolution
      = Except.ok (((rs.find? (fun r => asciiEqualFold r.name resolution)).map
          Resolution.id).getD "") := by
  refine ⟨rfl, ?_, ?_⟩
  · intro h
    have h2 : getResolutionID (Except.ok (status, rs)) resolution
        = if status = 200 then Except.ok (resolutionLoop resolution rs)
          else Except.error ("error getting resolution: " ++ toString status) := rfl
    rw [h2, if_neg h]
  · have h2 : getResolutionID (Except.ok (200, rs)) resolution
        = if (200 : Nat) = 200 then Except.ok (resolutionLoop resolution rs)
          else Except.error ("error getting resolution: " ++ toString (200 : Nat)) := rfl
    rw [h2, if_pos rfl, resolutionLoop_eq_find]

/-- C7 witness: status 404 is an error; with a 200 answer and two
resolutions named "fixed" and "Fixed", looking up "Fixed" returns the id
of the first (case-insensitive first match wins). -/
theorem getResolutionID_spec_witness :
    ((404 : Nat) ≠ 200) ∧
    getResolutionID (Except.ok (404, ([] : List Resolution))) "Fixed"
      = Except.error ("error getting resolution: " ++ toString (404 : Nat)) ∧
    getResolutionID
        (Except.ok (200,
          [{ id := "1", name := "fixed" }, { id := "2", name := "Fixed" }]))
        "Fixed"
      = Except.ok "1" := by
  refine ⟨by decide, ?_, ?_⟩
  · exact (getResolutionID_spec "" 404 [] "Fixed").2.1 (by decide)
  · have h := (getResolutionID_spec "" 200
        [{ id := "1", name := "fixed" }, { id := "2", name := "Fixed" }] "Fixed").2.2
    have hv : ((([{ id := "1", name := "fixed" }, { id := "2", name := "Fixed" }]
          : List Resolution).find? (fun r => asciiEqualFold r.name "Fixed")).map
            Resolution.id).getD "" = "1" := by decide
    rw [h, hv]

/-- C8: the list nesting depth drives the marker count: entering an item
emits exactly `listDepth` marker characters followed by a space (the
renderer buffer `r.buf` is empty, as it is throughout every `ToJira` run,
so the newline guard cannot add anything before them), `markerRepeat d`
has exactly d characters, entering a list raises the depth by one, and
rendering the claim's example tree yields
"* item 1\n** nested\n* item 2". -/
theorem renderList_nesting_depth :
    toJiraAST nestedListDoc = "* item 1\n** nested\n* item 2" ∧
    (∀ (r : JiraRenderer) (w : String), r.buf = "" →
      (renderItem r w true).2 = w ++ markerRepeat r.listDepth ++ " ") ∧
    (∀ d : Nat, (markerRepeat d).length = d) ∧
    (∀ (r : JiraRenderer) (w : String),
      ((renderList r w true).1).listDepth = r.listDepth + 1) := by
  refine ⟨by decide, ?_, ?_, ?_⟩
  · intro r w h
    have h2 : renderItem r w true
        = (r, (if 0 < r.buf.length ∧ strHasSuffix r.buf "\n" = false
              then w ++ "\n" else w)
            ++ markerRepeat r.listDepth ++ " ") := rfl
    rw [h2]
    have hfalse : ¬ (0 < r.buf.length ∧ strHasSuffix r.buf "\n" = false) := by
      rintro ⟨h1, _⟩
      rw [h] at h1
      exact absurd h1 (by decide)
    rw [if_neg hfalse]
  · intro d
    have h3 : (markerRepeat d).length = (List.replicate d (Char.ofNat 42)).length := rfl
    rw [h3, List.length_replicate]
  · intro r w
    rfl

/-- C8 witness: at depth 2 with an empty renderer buffer, entering an item
appends exactly two markers and a space. -/
theorem renderList_nesting_depth_witness :
    (({ buf := "", inList := true, listDepth := 2, inCodeBlock := false }
        : JiraRenderer).buf = "") ∧
    (renderItem
        { buf := "", inList := true, listDepth := 2, inCodeBlock := false }
        "x" true).2
      = "x" ++ markerRepeat 2 ++ " " :=
  ⟨rfl, (renderList_nesting_depth).2.1
    { buf := "", inList := true, listDepth := 2, inCodeBlock := false } "x" rfl⟩

/-- C9: entering a code block emits the blank-line separator exactly when
the renderer buffer is non-empty, then the `\x7bcode:language=...\x7d` header —
language token `java` when the block declares none — then the content
verbatim, then the closing `\x7bcode\x7d` delimiter with no trailing newline:
the emitted text always ends with the byte `\x7d` (125). -/
theorem renderCodeBlock_spec (r : JiraRenderer) (w info lit : String) :
    renderCodeBlock r w info lit true
      = ({ r with inCodeBlock := false },
        (if 0 < r.buf.length then w ++ "\n" else w)
          ++ "\x7bcode:language=" ++ (if info = "" then "java" else info)
          ++ "\x7d\n" ++ lit ++ "\x7bcode\x7d") ∧
    ((renderCodeBlock r w info lit true).2).data.getLast?
      = some (Char.ofNat 125) := by
  constructor
  · rfl
  · have h1 : (renderCodeBlock r w info lit true).2
        = ((if 0 < r.buf.length then w ++ "\n" else w)
          ++ "\x7bcode:language=" ++ (if info = "" then "java" else info)
          ++ "\x7d\n" ++ lit) ++ "\x7bcode\x7d" := rfl
    rw [h1]
    rw [show (((if 0 < r.buf.length then w ++ "\n" else w)
          ++ "\x7bcode:language=" ++ (if info = "" then "java" else info)
          ++ "\x7d\n" ++ lit) ++ "\x7bcode\x7d").data
        = ((if 0 < r.buf.length then w ++ "\n" else w)
          ++ "\x7bcode:language=" ++ (if info = "" then "java" else info)
          ++ "\x7d\n" ++ lit).data ++ ("\x7bcode\x7d" : String).data from rfl]
    rw [List.getLast?_append]
    rw [show ("\x7bcode\x7d" : String).data.getLast? = some (Char.ofNat 125) from by decide]
    rfl

/-- C10: identifier extraction is partial in its pattern argument: a
non-empty pattern that fails to compile makes `getIssueKeys` panic via
`regexp.MustCompile` (the error outcome of the model) rather than return
an error value or an empty list; a compiling non-empty pattern fully
replaces the default pattern; the empty pattern selects the default. -/
theorem getIssueKeys_custom_pattern (compile : String → Option CompiledPattern)
    (ref : List Nat) (p : String) :
    (p ≠ "" → compile p = none →
      getIssueKeysWith compile ref p = Except.error ()) ∧
    (∀ pat : CompiledPattern, p ≠ "" → compile p = some pat →
      getIssueKeysWith compile ref p = Except.ok (dedupKeys [] (pat.findAll ref))) ∧
    getIssueKeysWith compile ref "" = Except.ok (dedupKeys [] (findAllIssues ref)) := by
  have h2 : ∀ q : String, getIssueKeysWith compile ref q
      = if q = "" then Except.ok (dedupKeys [] (findAllIssues ref))
        else match compile q with
          | none => Except.error ()
          | some pat => Except.ok (dedupKeys [] (pat.findAll ref)) := fun _ => rfl
  refine ⟨?_, ?_, ?_⟩
  · intro hp hc
    rw [h2 p, if_neg hp, hc]
  · intro pat hp hc
    rw [h2 p, if_neg hp, hc]
  · rw [h2 "", if_pos rfl]

/-- C10 witness: "(" is not a valid Go regular expression; with a compile
oracle rejecting it, the non-empty pattern path panics, while the empty
pattern runs the default scan. -/
theorem getIssueKeys_custom_pattern_witness :
    (("(" : String) ≠ "") ∧
    getIssueKeysWith (fun _ => none) [] "(" = Except.error () ∧
    getIssueKeysWith (fun _ => none) [] "" = Except.ok [] := by
  refine ⟨by decide, ?_, ?_⟩
  · exact (getIssueKeys_custom_pattern (fun _ => none) [] "(").1 (by decide) rfl
  · have h := (getIssueKeys_custom_pattern (fun _ => none) [] "").2.2
    rw [h]
    rfl

end GoJira
